import Mathlib

/-!
  Verification development for the multi-agent Temporal repository
  (taonic/multi-agent-temporal), centred on the conversation state machine
  implemented by AgentWorkflow in src/temporal/agent/workflow.py.

  The Python workflow is shallowly embedded as executable Lean functions:
  - the vertexai content model (Part, Content, Candidate) becomes a small
    inductive data model; the to_dict / from_dict round trip is modelled as
    the identity, and json.dumps of an argument dict is modelled by an
    injective printer jsonDumps;
  - the workflow instance state (workflow.py lines 39-47) becomes WFState;
  - the run loop (workflow.py lines 49-104) becomes the fuel-indexed,
    structurally recursive interpreter runLoopF, which also emits an event
    trace (gateway calls, thought stores, parent signals, dispatches,
    response resolutions) so that ordering claims are statable;
  - external prompt updates (workflow.py lines 195-211) are delivered at the
    wait points of the loop, one per _wait_for_prompt, matching the
    single-flight contract of the spec; the overlapping-update behaviour of
    the prompt handler is modelled separately by the synchronizer slot model
    (syncStep below) which records every allocated future;
  - child workflows (workflow.py lines 161-180) are run by a continuation
    passed into the dispatch loop, instantiated with the interpreter itself
    at one less fuel; child-to-parent add_model_content signals are delivered
    in order when the child completes;
  - the ThoughtLog query and signal handlers (workflow.py lines 213-221)
    become getModelContent and addModelContent over a plain list.
-/

namespace MultiAgent

/-- Finish reasons of a model candidate that the workflow inspects
(workflow.py lines 81 and 93); every other vertexai finish reason is
collapsed into the constructor other, which the code treats uniformly
(no branch matches it). -/
inductive FinishReason where
  | stop
  | malformedFunctionCall
  | other
deriving Repr, DecidableEq, BEq

/-- A requested tool invocation: name plus structured arguments.  The
argument dict of vertexai FunctionCall is modelled as an association list
from field name to (serialized) field value. -/
structure FunctionCall where
  name : String
  args : List (String × String)
deriving Repr, DecidableEq, BEq

/-- A content fragment, mirroring vertexai Part as used by workflow.py:
either literal text, a requested function call, or a function response.
The response payload (the dict passed to Part.from_function_response) is
modelled as its serialized form. -/
inductive Part where
  | text (s : String)
  | functionCall (name : String) (args : List (String × String))
  | functionResponse (name : String) (content : String)
deriving Repr, DecidableEq, BEq

/-- One conversation entry: a role (the code only ever constructs "user"
and receives "model") and an ordered list of parts. -/
structure Content where
  role : String
  parts : List Part
deriving Repr, DecidableEq, BEq

/-- The texts of the text parts of a content entry, in order.  This models
the loop of _store_content (workflow.py lines 111-118): part.text raises
AttributeError on non-text parts (caught and skipped), and an empty text
is falsy so the if on line 113 also skips it. -/
def textParts (c : Content) : List String :=
  c.parts.filterMap fun p =>
    match p with
    | .text s => if s = "" then none else some s
    | _ => none

/-- The textual content of a turn, modelling candidate.content.text as used
on workflow.py line 97 to resolve the pending response. -/
def contentText (c : Content) : String :=
  String.join (textParts c)

/-- One candidate returned by the call_llm activity (workflow.py line 140). -/
structure Candidate where
  finishReason : FinishReason
  finishMessage : String
  content : Content
deriving Repr, DecidableEq, BEq

/-- The function calls requested by a candidate, modelling the vertexai
Candidate.function_calls property: the function_call parts of its content,
in order. -/
def Candidate.functionCalls (c : Candidate) : List FunctionCall :=
  c.content.parts.filterMap fun p =>
    match p with
    | .functionCall n a => some ⟨n, a⟩
    | _ => none

/-- The recursive name-to-subtree mapping passed as sub_agents: the dict
built by Session._agent_hierarchy (session.py line 43) and threaded through
AgentWorkflowInput.sub_agents. -/
inductive AgentTree where
  | node (children : List (String × AgentTree))

/-- The direct children of an agent tree node. -/
def AgentTree.children : AgentTree → List (String × AgentTree)
  | .node cs => cs

/-- Dict lookup on the direct children only, modelling
func.name in self.sub_agents.keys() followed by self.sub_agents[func.name]
(workflow.py lines 153 and 165).  Keys are unique among siblings. -/
def AgentTree.lookup (t : AgentTree) (name : String) : Option AgentTree :=
  go t.children
where
  go : List (String × AgentTree) → Option AgentTree
    | [] => none
    | (k, sub) :: rest => if k = name then some sub else go rest

/-- The input dataclass of the workflow (workflow.py lines 22-29).
Serialization of contents across the workflow boundary (to_dict / from_dict)
is modelled as the identity. -/
structure AgentWorkflowInput where
  agentName : String
  subAgents : AgentTree
  prompt : String
  contents : List Content
  isRootAgent : Bool

/-- Status of one asyncio.Future used as pending_respond. -/
inductive FutureState where
  | unresolved
  | resolved (v : String)
deriving Repr, DecidableEq, BEq

/-- The mutable instance state of AgentWorkflow (workflow.py lines 39-47).
model_contents is a dict keyed by agent name in the code, but every access
uses the key self.agent_name (lines 63, 114, 216, 221), so it is modelled
as the single list stored under that key. -/
structure WFState where
  agentName : String
  isRootAgent : Bool
  subAgents : AgentTree
  contents : List Content
  contentsStartsAt : Nat
  pendingRespond : Option FutureState
  terminate : Bool
  modelContents : List String

/-- Observable events of a run, used to state ordering and absence
properties: a call_llm activity invocation, an append to the own ThoughtLog,
a fire-and-forget signal to the parent, a local tool activity invocation,
a child workflow invocation, resolving the pending response, and reaching
a _wait_for_prompt suspension. -/
inductive Ev where
  | callLLM (agent : String)
  | storeThought (t : String)
  | signalParent (t : String)
  | invokeActivity (name : String)
  | invokeChild (name : String)
  | resolveRespond (v : String)
  | awaitPrompt
deriving Repr, DecidableEq, BEq

/-- How a (fuel-bounded) run ended: a sub-agent returned its delta
(workflow.py line 101), the main loop exited because the terminate flag was
observed (line 79), the instance is suspended in _wait_for_prompt with no
further external prompt supplied, the fuel ran out, or a set_result call
was made on an already resolved future (asyncio InvalidStateError). -/
inductive Outcome where
  | returned (delta : List Content)
  | exited
  | awaitingPrompt
  | outOfFuel
  | errored
deriving Repr, DecidableEq, BEq

/-- Result of interpreting a run: final instance state, emitted events in
order, and how it ended. -/
structure RunOut where
  state : WFState
  events : List Ev
  outcome : Outcome

/-- Prepend already emitted events to the result of a continuation. -/
def withEvents (pre : List Ev) (r : RunOut) : RunOut :=
  ⟨r.state, pre ++ r.events, r.outcome⟩

/-- The payloads of the parent signals occurring in an event list, in
order: these are the messages a sub-agent sent to its parent via
_propagate_model_content (workflow.py lines 120-127). -/
def sentSignals : List Ev → List String
  | [] => []
  | .signalParent t :: rest => t :: sentSignals rest
  | _ :: rest => sentSignals rest

/-- A user-role content entry holding a single text part, as built on
workflow.py lines 72-75, 83-86 and 202-205. -/
def userContent (s : String) : Content :=
  ⟨"user", [Part.text s]⟩

/-- Model of json.dumps(func.args) on workflow.py line 162: an injective
printer of the argument dict.  It is never the empty string, so a child
workflow never takes the empty-prompt branch of run. -/
def jsonDumps (args : List (String × String)) : String :=
  "dict(" ++ String.intercalate ", " (args.map fun kv => kv.1 ++ "=" ++ kv.2) ++ ")"

/-- Model of [c.to_dict() for c in contents] as a serialized payload, used
when a child delta crosses the workflow boundary as a function response
(workflow.py lines 101 and 177-180). -/
def encodeContents (cs : List Content) : String :=
  "contents(" ++ String.intercalate "; " (cs.map fun c => c.role ++ ":" ++ toString c.parts.length) ++ ")"

/-- Model of the response dict literal passed to Part.from_function_response
(workflow.py lines 177-180 and 190-193). -/
def wrapContent (v : String) : String :=
  "content=" ++ v

/-- The argument value passed to a local tool activity: the first value of
the args dict or an empty default, per next(iter(func.args.values()), dict())
on workflow.py line 183. -/
def firstArgVal (f : FunctionCall) : String :=
  match f.args with
  | [] => ""
  | (_, v) :: _ => v

/-- The thought events emitted while storing one model turn: per text part,
an append to the own log, followed for non-root instances by a signal to the
parent (workflow.py lines 113-116). -/
def thoughtEvents (isRoot : Bool) : List String → List Ev
  | [] => []
  | t :: ts =>
    if isRoot then Ev.storeThought t :: thoughtEvents isRoot ts
    else Ev.storeThought t :: Ev.signalParent t :: thoughtEvents isRoot ts

/-- Model of _store_content (workflow.py lines 106-118): append the turn to
the history; if it is a model turn, append each non-empty text part to the
own ThoughtLog and (for non-root instances) signal it to the parent. -/
def storeContent (s : WFState) (c : Content) : WFState × List Ev :=
  if c.role = "model" then
    ({ s with contents := s.contents ++ [c],
              modelContents := s.modelContents ++ textParts c },
     thoughtEvents s.isRootAgent (textParts c))
  else
    ({ s with contents := s.contents ++ [c] }, [])

/-- Model of the prompt update handler body up to its suspension
(workflow.py lines 195-209): set the terminate flag on the sentinel, append
the prompt as a user entry, and install a fresh unresolved future as
pending_respond. -/
def promptUpdate (s : WFState) (p : String) : WFState :=
  let s1 := if p = "END" then { s with terminate := true } else s
  { s1 with contents := s1.contents ++ [userContent p],
            pendingRespond := some .unresolved }

/-- The state a run starts from (workflow.py lines 60-65): history is the
deserialized input contents, delta offset is its length, the ThoughtLog
entry for the own agent name is empty. -/
def initState (input : AgentWorkflowInput) : WFState :=
  { agentName := input.agentName
    isRootAgent := input.isRootAgent
    subAgents := input.subAgents
    contents := input.contents
    contentsStartsAt := input.contents.length
    pendingRespond := none
    terminate := false
    modelContents := [] }

/-- The child workflow input built by _invoke_as_child_workflow
(workflow.py lines 161-168): the action name as agent name, the matching
subtree as sub_agents, the serialized arguments as initiating prompt, a
copy of the current history, and is_root_agent left at its default False. -/
def childInput (s : WFState) (f : FunctionCall) (sub : AgentTree) : AgentWorkflowInput :=
  { agentName := f.name
    subAgents := sub
    prompt := jsonDumps f.args
    contents := s.contents
    isRootAgent := false }

/-- Query handler get_model_content (workflow.py lines 213-216): the suffix
of the ThoughtLog from the supplied watermark, via python list slicing. -/
def getModelContent (log : List String) (watermark : Nat) : List String :=
  log.drop watermark

/-- Signal handler add_model_content (workflow.py lines 218-221): append the
propagated message to the own ThoughtLog. -/
def addModelContent (log : List String) (m : String) : List String :=
  log ++ [m]

/-- The history positions a watermark query returns: the indices from the
watermark up to the current log length. -/
def indicesReturned (log : List String) (w : Nat) : List Nat :=
  List.range' w (log.length - w)

/-- Oracle for the call_llm activity: given the agent name and the current
history, the single candidate of the response (workflow.py lines 129-140).
The gateway is deterministic (temperature 0), so a function is faithful. -/
def LLMOracle : Type :=
  String → List Content → Candidate

/-- Oracle for local tool activities: given the activity name and the single
positional argument value (workflow.py lines 182-189), the raw result. -/
def ActOracle : Type :=
  String → String → String

/-- Result of the collection loop of _handle_function_calls: either the
updated state with the response parts and events, or the point at which the
instance got stuck (a child run that did not complete within fuel). -/
inductive HandleRes where
  | ok (s : WFState) (resParts : List Part) (events : List Ev)
  | stuck (s : WFState) (events : List Ev) (o : Outcome)

/-- Result of dispatching a single requested action. -/
inductive InvokeRes where
  | ok (part : Part) (s : WFState) (events : List Ev)
  | stuck (s : WFState) (events : List Ev) (o : Outcome)

/-- Dispatch one requested action (one iteration of the loop in
_handle_function_calls, workflow.py lines 149-157): if the name is a direct
child agent, run it as a child workflow on childInput and wrap the returned
delta as a function-response part, delivering the add_model_content signals
the child sent to this instance in order; otherwise invoke it as a local
tool activity, passing the first argument value, and wrap the raw result. -/
def invokeOne (runChild : AgentWorkflowInput → RunOut) (act : ActOracle)
    (s : WFState) (f : FunctionCall) : InvokeRes :=
  match s.subAgents.lookup f.name with
  | some sub =>
    let r := runChild (childInput s f sub)
    match r.outcome with
    | .returned delta =>
      .ok (Part.functionResponse f.name (wrapContent (encodeContents delta)))
        { s with modelContents := s.modelContents ++ sentSignals r.events }
        [Ev.invokeChild f.name]
    | o =>
      .stuck { s with modelContents := s.modelContents ++ sentSignals r.events }
        [Ev.invokeChild f.name] o
  | none =>
    .ok (Part.functionResponse f.name (wrapContent (act f.name (firstArgVal f))))
      s [Ev.invokeActivity f.name]

/-- The collection loop of _handle_function_calls (workflow.py lines
148-157): dispatch every requested action in the order the model requested
them, collecting exactly one response part per action. -/
def handleFuncLoopW (runChild : AgentWorkflowInput → RunOut) (act : ActOracle) :
    WFState → List FunctionCall → HandleRes
  | s, [] => .ok s [] []
  | s, f :: rest =>
    match invokeOne runChild act s f with
    | .ok part s1 evs =>
      match handleFuncLoopW runChild act s1 rest with
      | .ok s2 resParts evs2 => .ok s2 (part :: resParts) (evs ++ evs2)
      | .stuck s2 evs2 o => .stuck s2 (evs ++ evs2) o
    | .stuck s1 evs o => .stuck s1 evs o

/-- Full _handle_function_calls (workflow.py lines 146-159): run the
collection loop, then append all response parts as one new user entry. -/
def dispatchActions (runChild : AgentWorkflowInput → RunOut) (act : ActOracle)
    (s : WFState) (funcs : List FunctionCall) : HandleRes :=
  match handleFuncLoopW runChild act s funcs with
  | .ok s1 resParts evs =>
    .ok { s1 with contents := s1.contents ++ [Content.mk "user" resParts] } resParts evs
  | .stuck s1 evs o => .stuck s1 evs o

/-- The run entry (workflow.py lines 49-77) up to entering the main loop,
parameterized by the loop as a continuation: initialize the state from the
input; with an empty initiating prompt suspend in _wait_for_prompt until an
external prompt update arrives, otherwise append the initiating prompt as a
user entry and enter the loop directly. -/
def runWFwith (k : WFState → List String → RunOut)
    (input : AgentWorkflowInput) (prompts : List String) : RunOut :=
  let s0 := initState input
  if input.prompt = "" then
    match prompts with
    | [] => ⟨s0, [Ev.awaitPrompt], .awaitingPrompt⟩
    | p :: rest => withEvents [Ev.awaitPrompt] (k (promptUpdate s0 p) rest)
  else
    k { s0 with contents := s0.contents ++ [userContent input.prompt] } prompts

/-- The main loop of run (workflow.py lines 79-104), fuel-indexed so that
the interpreter is structurally recursive and executable.  Each iteration:
check the terminate flag (on exit resolve a pending response with the empty
string, lines 103-104); call the gateway; on a malformed function call
append the diagnostic as a user entry and retry (lines 81-88); otherwise
store the turn (line 90); if actions were requested dispatch them and loop
(lines 91-92); on a finishing STOP turn a root resolves the pending
response, when one exists, with the turn text and suspends for the next
prompt (lines 93-98), while a sub-agent returns the history slice from its
delta offset (lines 99-101); on any other finish reason the loop simply
repeats.  External prompt updates are consumed one per suspension; a child
workflow is run by this same interpreter at one less fuel with no external
prompts. -/
def runLoopF (llm : LLMOracle) (act : ActOracle) : Nat → WFState → List String → RunOut
  | 0, s, _ => ⟨s, [], .outOfFuel⟩
  | n + 1, s, prompts =>
    if s.terminate then
      match s.pendingRespond with
      | none => ⟨s, [], .exited⟩
      | some .unresolved =>
        ⟨{ s with pendingRespond := some (.resolved "") }, [Ev.resolveRespond ""], .exited⟩
      | some (.resolved _) => ⟨s, [], .errored⟩
    else
      let cand := llm s.agentName s.contents
      if cand.finishReason = .malformedFunctionCall then
        withEvents [Ev.callLLM s.agentName]
          (runLoopF llm act n
            { s with contents := s.contents ++ [userContent cand.finishMessage] } prompts)
      else
        let s1 := (storeContent s cand.content).1
        let evs1 := (storeContent s cand.content).2
        if cand.functionCalls.isEmpty then
          if cand.finishReason = .stop then
            if s1.isRootAgent then
              match s1.pendingRespond with
              | some .unresolved =>
                let s2 := { s1 with pendingRespond := some (.resolved (contentText cand.content)) }
                match prompts with
                | [] =>
                  ⟨s2, Ev.callLLM s.agentName :: evs1 ++
                    [Ev.resolveRespond (contentText cand.content), Ev.awaitPrompt], .awaitingPrompt⟩
                | p :: rest =>
                  withEvents (Ev.callLLM s.agentName :: evs1 ++
                      [Ev.resolveRespond (contentText cand.content), Ev.awaitPrompt])
                    (runLoopF llm act n (promptUpdate s2 p) rest)
              | some (.resolved _) =>
                ⟨s1, Ev.callLLM s.agentName :: evs1, .errored⟩
              | none =>
                withEvents (Ev.callLLM s.agentName :: evs1) (runLoopF llm act n s1 prompts)
            else
              ⟨s1, Ev.callLLM s.agentName :: evs1,
                .returned (s1.contents.drop s1.contentsStartsAt)⟩
          else
            withEvents (Ev.callLLM s.agentName :: evs1) (runLoopF llm act n s1 prompts)
        else
          match dispatchActions
              (fun inp => runWFwith (fun st pr => runLoopF llm act n st pr) inp [])
              act s1 cand.functionCalls with
          | .ok s2 _ evs2 =>
            withEvents (Ev.callLLM s.agentName :: evs1 ++ evs2) (runLoopF llm act n s2 prompts)
          | .stuck s2 evs2 o =>
            ⟨s2, Ev.callLLM s.agentName :: evs1 ++ evs2, o⟩

/-- A whole workflow execution: AgentWorkflow.run on the given input, with
the given queue of external prompt updates. -/
def runWF (llm : LLMOracle) (act : ActOracle) (fuel : Nat)
    (input : AgentWorkflowInput) (prompts : List String) : RunOut :=
  match fuel with
  | 0 => ⟨initState input, [], .outOfFuel⟩
  | n + 1 => runWFwith (fun st pr => runLoopF llm act n st pr) input prompts

/-- The child-workflow runner the interpreter uses at fuel n: execute the
child input as a fresh workflow with no external prompts (only the parent
interacts with it), as execute_child_workflow does on workflow.py
lines 170-175. -/
def childRunnerF (llm : LLMOracle) (act : ActOracle) (n : Nat) :
    AgentWorkflowInput → RunOut :=
  fun inp => runWFwith (fun st pr => runLoopF llm act n st pr) inp []

/-!  The synchronizer slot model.  The prompt update handler (workflow.py
lines 195-211) may in general be invoked while a previous update is still
awaiting its future: Temporal runs each update as its own coroutine, and
line 209 overwrites self.pending_respond with a fresh asyncio.Future
unconditionally.  To reason about how many unresolved futures exist, this
model records every future ever allocated by the handler together with its
resolution status, and which one the instance field currently references;
the run loop resolves the currently referenced future (lines 97 and 104). -/

/-- An operation on the synchronizer: a prompt update call allocating a
fresh future into the slot (workflow.py line 209), or the run loop
resolving the currently referenced future (lines 97 and 104). -/
inductive SyncOp where
  | promptCall
  | resolveRespond (v : String)
deriving Repr, DecidableEq, BEq

/-- All futures the prompt handler ever allocated (true means resolved),
plus the index of the future currently referenced by pending_respond. -/
structure SyncState where
  futures : List Bool
  current : Option Nat
deriving Repr, DecidableEq, BEq

/-- Number of futures allocated by prompt calls and never resolved. -/
def numUnresolved : List Bool → Nat
  | [] => 0
  | b :: rest => (if b then 0 else 1) + numUnresolved rest

/-- One synchronizer operation: a prompt call appends a fresh unresolved
future and points the slot at it; a resolve marks the currently referenced
future resolved (a no-op when no future was ever allocated, matching the
falsy check on workflow.py lines 96 and 103). -/
def syncStep (s : SyncState) (op : SyncOp) : SyncState :=
  match op with
  | .promptCall => ⟨s.futures ++ [false], some s.futures.length⟩
  | .resolveRespond _ =>
    match s.current with
    | none => s
    | some i => ⟨s.futures.set i true, s.current⟩

/-- Run a sequence of synchronizer operations from a start state. -/
def syncRunFrom (s : SyncState) (ops : List SyncOp) : SyncState :=
  ops.foldl syncStep s

/-- Run a sequence of synchronizer operations from the initial state
(no future allocated, pending_respond is None per workflow.py line 45). -/
def syncRun (ops : List SyncOp) : SyncState :=
  syncRunFrom ⟨[], none⟩ ops

/-- An operation sequence is single-flight when every prompt call happens
only while no allocated future is unresolved, i.e. each prompt call waits
for the previous one to be resolved. -/
def wellSequenced : SyncState → List SyncOp → Bool
  | _, [] => true
  | s, .promptCall :: rest =>
    (numUnresolved s.futures == 0) && wellSequenced (syncStep s .promptCall) rest
  | s, .resolveRespond v :: rest =>
    wellSequenced (syncStep s (.resolveRespond v)) rest

/-- The state carried by a dispatch-loop result. -/
def HandleRes.stateOf : HandleRes → WFState
  | .ok s _ _ => s
  | .stuck s _ _ => s

/-- The state carried by a single-dispatch result. -/
def InvokeRes.stateOf : InvokeRes → WFState
  | .ok _ s _ => s
  | .stuck s _ _ => s

/-- The name a function-response part answers, if the part is one. -/
def respName : Part → Option String
  | .functionResponse n _ => some n
  | _ => none

/-- The action name of a dispatch event, if the event is a dispatch. -/
def invokeName : Ev → Option String
  | .invokeActivity n => some n
  | .invokeChild n => some n
  | _ => none

section Helpers

@[simp]
theorem storeContent_contents (s : WFState) (c : Content) :
    (storeContent s c).1.contents = s.contents ++ [c] := by
  unfold storeContent; split <;> rfl

@[simp]
theorem storeContent_isRoot (s : WFState) (c : Content) :
    (storeContent s c).1.isRootAgent = s.isRootAgent := by
  unfold storeContent; split <;> rfl

@[simp]
theorem storeContent_pending (s : WFState) (c : Content) :
    (storeContent s c).1.pendingRespond = s.pendingRespond := by
  unfold storeContent; split <;> rfl

@[simp]
theorem storeContent_startsAt (s : WFState) (c : Content) :
    (storeContent s c).1.contentsStartsAt = s.contentsStartsAt := by
  unfold storeContent; split <;> rfl

@[simp]
theorem storeContent_terminate (s : WFState) (c : Content) :
    (storeContent s c).1.terminate = s.terminate := by
  unfold storeContent; split <;> rfl

@[simp]
theorem storeContent_agentName (s : WFState) (c : Content) :
    (storeContent s c).1.agentName = s.agentName := by
  unfold storeContent; split <;> rfl

@[simp]
theorem storeContent_subAgents (s : WFState) (c : Content) :
    (storeContent s c).1.subAgents = s.subAgents := by
  unfold storeContent; split <;> rfl

theorem storeContent_model_log (s : WFState) (c : Content) (h : c.role = "model") :
    (storeContent s c).1.modelContents = s.modelContents ++ textParts c := by
  unfold storeContent; rw [h]; simp

theorem storeContent_model_events (s : WFState) (c : Content) (h : c.role = "model") :
    (storeContent s c).2 = thoughtEvents s.isRootAgent (textParts c) := by
  unfold storeContent; rw [h]; simp

theorem sentSignals_thoughtEvents_nonroot (ts : List String) :
    sentSignals (thoughtEvents false ts) = ts := by
  induction ts with
  | nil => rfl
  | cons t ts ih => simp [thoughtEvents, sentSignals, ih]

theorem sentSignals_thoughtEvents_root (ts : List String) :
    sentSignals (thoughtEvents true ts) = [] := by
  induction ts with
  | nil => rfl
  | cons t ts ih => simp [thoughtEvents, sentSignals, ih]

end Helpers

/-- C10: for every non-negative watermark the thought query is total and
returns exactly the suffix of the ThoughtLog starting at that index; when
the watermark is at least the number of logged entries it returns the empty
list instead of failing. -/
theorem c10_getModelContent_total (log : List String) (w : Nat) :
    (∀ i : Nat, (getModelContent log w)[i]? = log[w + i]?) ∧
    (getModelContent log w).length = log.length - w ∧
    (log.length ≤ w → getModelContent log w = []) := by
  refine ⟨?_, ?_, ?_⟩
  · intro i
    simp [getModelContent, List.getElem?_drop]
  · simp [getModelContent]
  · intro h
    simp [getModelContent, List.drop_eq_nil_of_le h]

/-- C10 witness at a concrete log and watermark beyond its length. -/
theorem c10_getModelContent_total_witness :
    ["alpha", "beta"].length ≤ 5 ∧ getModelContent ["alpha", "beta"] 5 = [] :=
  ⟨by decide, (c10_getModelContent_total ["alpha", "beta"] 5).2.2 (by decide)⟩

section WatermarkHelpers

theorem rangeMap_getD_drop (l : List String) :
    ∀ n w, l.length = w + n →
      (List.range' w n).map (fun j => l.getD j "") = l.drop w := by
  intro n
  induction n with
  | zero =>
    intro w h
    have hd : l.drop w = [] := List.drop_eq_nil_of_le (by omega)
    simp [hd]
  | succ n ih =>
    intro w h
    rw [List.range'_succ, List.map_cons, ih (w + 1) (by omega)]
    rw [List.drop_eq_getElem_cons (show w < l.length by omega)]
    congr 1
    rw [List.getD_eq_getElem?_getD, List.getElem?_eq_getElem (show w < l.length by omega)]
    rfl

end WatermarkHelpers

/-- C7: watermark queries are monotonic.  Between the two queries the log
can only have grown by appended entries (storeContent and addModelContent
only ever append), so the later log is the earlier log1 followed by some ms.
When the second watermark is at least the entry count seen by the first
query, the second query reads no position the first query read, returns
only entries appended after the first query, and its output is exactly the
entries at the positions it covers. -/
theorem c7_watermark_monotonic (log1 ms : List String) (w1 w2 : Nat)
    (h : log1.length ≤ w2) :
    (∀ j ∈ indicesReturned (log1 ++ ms) w2, j ∉ indicesReturned log1 w1) ∧
    getModelContent (log1 ++ ms) w2 = getModelContent ms (w2 - log1.length) ∧
    (indicesReturned (log1 ++ ms) w2).map (fun j => (log1 ++ ms).getD j "") =
      getModelContent (log1 ++ ms) w2 := by
  refine ⟨?_, ?_, ?_⟩
  · intro j hj hj1
    rw [indicesReturned, List.mem_range'_1] at hj hj1
    omega
  · unfold getModelContent
    have h2 : log1.length + (w2 - log1.length) = w2 := by omega
    calc (log1 ++ ms).drop w2
        = (log1 ++ ms).drop (log1.length + (w2 - log1.length)) := by rw [h2]
      _ = ms.drop (w2 - log1.length) := List.drop_append _
  · by_cases hle : w2 ≤ (log1 ++ ms).length
    · exact rangeMap_getD_drop (log1 ++ ms) ((log1 ++ ms).length - w2) w2 (by omega)
    · have h0 : (log1 ++ ms).length - w2 = 0 := by omega
      unfold indicesReturned getModelContent
      rw [h0]
      simp [List.drop_eq_nil_of_le (by omega : (log1 ++ ms).length ≤ w2)]

/-- C7 witness: two concrete queries, the second at a watermark equal to
the count seen by the first. -/
theorem c7_watermark_monotonic_witness :
    ["a0"].length ≤ 1 ∧
      getModelContent (["a0"] ++ ["b0", "b1"]) 1 = getModelContent ["b0", "b1"] (1 - ["a0"].length) :=
  ⟨by decide, (c7_watermark_monotonic ["a0"] ["b0", "b1"] 0 1 (by decide)).2.1⟩

section SyncHelpers

theorem numUnresolved_append (a b : List Bool) :
    numUnresolved (a ++ b) = numUnresolved a + numUnresolved b := by
  induction a with
  | nil => simp [numUnresolved]
  | cons x a ih => simp [numUnresolved, ih]; omega

theorem numUnresolved_set_true (l : List Bool) :
    ∀ i, numUnresolved (l.set i true) ≤ numUnresolved l := by
  induction l with
  | nil => intro i; simp
  | cons b rest ih =>
    intro i
    cases i with
    | zero => simp [numUnresolved]
    | succ i =>
      simp only [List.set, numUnresolved]
      have := ih i
      omega

theorem wellSequenced_append (l1 : List SyncOp) :
    ∀ (s : SyncState) (l2 : List SyncOp),
      wellSequenced s (l1 ++ l2) = true → wellSequenced s l1 = true := by
  induction l1 with
  | nil => intro s l2 _; rfl
  | cons op rest ih =>
    intro s l2 hw
    cases op with
    | promptCall =>
      rw [List.cons_append, wellSequenced, Bool.and_eq_true] at hw
      rw [wellSequenced, Bool.and_eq_true]
      exact ⟨hw.1, ih _ l2 hw.2⟩
    | resolveRespond v =>
      rw [List.cons_append, wellSequenced] at hw
      rw [wellSequenced]
      exact ih _ l2 hw

theorem syncInv (l : List SyncOp) :
    ∀ s : SyncState, numUnresolved s.futures ≤ 1 → wellSequenced s l = true →
      numUnresolved (syncRunFrom s l).futures ≤ 1 := by
  induction l with
  | nil => intro s hs _; exact hs
  | cons op rest ih =>
    intro s hs hw
    rw [syncRunFrom, List.foldl_cons]
    cases op with
    | promptCall =>
      rw [wellSequenced, Bool.and_eq_true] at hw
      refine ih (syncStep s .promptCall) ?_ hw.2
      have h0 : numUnresolved s.futures = 0 := by simpa using hw.1
      simp [syncStep, numUnresolved_append, h0, numUnresolved]
    | resolveRespond v =>
      rw [wellSequenced] at hw
      refine ih (syncStep s (.resolveRespond v)) ?_ hw
      cases hc : s.current with
      | none => simpa [syncStep, hc] using hs
      | some i =>
        have hset := numUnresolved_set_true s.futures i
        simp only [syncStep, hc]
        omega

end SyncHelpers

/-- C2 counterexample: the prompt update handler allocates a fresh future
unconditionally (workflow.py line 209), so two prompt update calls with no
resolution in between, i.e. the second issued while the first future is
still unresolved, leave two unresolved futures allocated by the handler.
The claim, quantified over every sequence of prompt update calls, is
therefore false on the code. -/
theorem c2_counterexample :
    numUnresolved (syncRun [SyncOp.promptCall, SyncOp.promptCall]).futures = 2 := by
  decide

/-- C2 amended: at most one unresolved PendingResponse exists at any time
for every single-flight sequence of prompt update calls, i.e. one in which
each prompt call is issued only after every previously allocated future has
been resolved.  A second prompt call issued while one is unresolved instead
overwrites the slot and leaves the overwritten future unresolved forever. -/
theorem c2_single_pending_when_single_flight (ops l1 l2 : List SyncOp)
    (hws : wellSequenced ⟨[], none⟩ ops = true) (hsplit : ops = l1 ++ l2) :
    numUnresolved (syncRun l1).futures ≤ 1 := by
  subst hsplit
  exact syncInv l1 ⟨[], none⟩ (by simp [numUnresolved]) (wellSequenced_append l1 _ l2 hws)

/-- C2 witness: a single-flight sequence of two prompt calls with a
resolution in between satisfies the invariant at an intermediate prefix. -/
theorem c2_single_pending_witness :
    wellSequenced ⟨[], none⟩
      [SyncOp.promptCall, SyncOp.resolveRespond "ok", SyncOp.promptCall] = true ∧
    numUnresolved (syncRun [SyncOp.promptCall, SyncOp.resolveRespond "ok"]).futures ≤ 1 :=
  ⟨by decide,
   c2_single_pending_when_single_flight
     [SyncOp.promptCall, SyncOp.resolveRespond "ok", SyncOp.promptCall]
     [SyncOp.promptCall, SyncOp.resolveRespond "ok"] [SyncOp.promptCall]
     (by decide) rfl⟩

section DispatchHelpers

theorem invokeOne_ok_spec (runChild : AgentWorkflowInput → RunOut) (act : ActOracle)
    (s : WFState) (f : FunctionCall) (part : Part) (s1 : WFState) (evs : List Ev)
    (hok : invokeOne runChild act s f = .ok part s1 evs) :
    respName part = some f.name ∧
    evs.filterMap invokeName = [f.name] ∧
    s1.contents = s.contents ∧
    s1.agentName = s.agentName ∧
    s1.isRootAgent = s.isRootAgent ∧
    s1.subAgents = s.subAgents ∧
    s1.contentsStartsAt = s.contentsStartsAt ∧
    s1.pendingRespond = s.pendingRespond ∧
    s1.terminate = s.terminate := by
  simp only [invokeOne] at hok
  split at hok
  · split at hok
    · cases hok
      exact ⟨rfl, rfl, rfl, rfl, rfl, rfl, rfl, rfl, rfl⟩
    · cases hok
  · cases hok
    exact ⟨rfl, rfl, rfl, rfl, rfl, rfl, rfl, rfl, rfl⟩

theorem handleFuncLoopW_ok_spec (runChild : AgentWorkflowInput → RunOut) (act : ActOracle) :
    ∀ (funcs : List FunctionCall) (s s1 : WFState) (resParts : List Part) (evs : List Ev),
      handleFuncLoopW runChild act s funcs = .ok s1 resParts evs →
      resParts.length = funcs.length ∧
      resParts.map respName = funcs.map (fun f => some f.name) ∧
      evs.filterMap invokeName = funcs.map (fun f => f.name) ∧
      s1.contents = s.contents ∧
      s1.agentName = s.agentName ∧
      s1.isRootAgent = s.isRootAgent ∧
      s1.subAgents = s.subAgents ∧
      s1.contentsStartsAt = s.contentsStartsAt ∧
      s1.pendingRespond = s.pendingRespond ∧
      s1.terminate = s.terminate := by
  intro funcs
  induction funcs with
  | nil =>
    intro s s1 resParts evs hok
    simp only [handleFuncLoopW] at hok
    cases hok
    exact ⟨rfl, rfl, rfl, rfl, rfl, rfl, rfl, rfl, rfl, rfl⟩
  | cons f rest ih =>
    intro s s1 resParts evs hok
    simp only [handleFuncLoopW] at hok
    cases h1 : invokeOne runChild act s f with
    | ok part sa evsa =>
      rw [h1] at hok
      simp only [] at hok
      cases h2 : handleFuncLoopW runChild act sa rest with
      | ok sb partsb evsb =>
        rw [h2] at hok
        simp only [] at hok
        obtain ⟨r1, r2, r3, r4, r5, r6, r7, r8, r9⟩ :=
          invokeOne_ok_spec runChild act s f part sa evsa h1
        obtain ⟨q1, q2, q3, q4, q5, q6, q7, q8, q9, q10⟩ := ih sa sb partsb evsb h2
        cases hok
        refine ⟨by simp [q1], by simp [q2, r1], ?_, by rw [q4, r3], by rw [q5, r4],
          by rw [q6, r5], by rw [q7, r6], by rw [q8, r7], by rw [q9, r8], by rw [q10, r9]⟩
        rw [List.filterMap_append, r2, q3]
        rfl
      | stuck sb evsb o =>
        rw [h2] at hok
        simp only [] at hok
        cases hok
    | stuck sa evsa o =>
      rw [h1] at hok
      simp only [] at hok
      cases hok

theorem dispatchActions_ok (runChild : AgentWorkflowInput → RunOut) (act : ActOracle)
    (s s1 : WFState) (funcs : List FunctionCall) (resParts : List Part) (evs : List Ev)
    (hok : handleFuncLoopW runChild act s funcs = .ok s1 resParts evs) :
    dispatchActions runChild act s funcs =
      .ok { s1 with contents := s.contents ++ [Content.mk "user" resParts] } resParts evs := by
  have hc := (handleFuncLoopW_ok_spec runChild act funcs s s1 resParts evs hok).2.2.2.1
  simp only [dispatchActions, hok, hc]

end DispatchHelpers

/-- The dispatch step of the main loop: when the terminate flag is unset,
the gateway reports no malformed request, and the turn requests actions,
the loop stores the turn, dispatches the actions, appends the single user
entry of response parts, and re-enters the model-calling state with the
remaining fuel. -/
theorem runLoopF_dispatch_eq (llm : LLMOracle) (act : ActOracle) (n : Nat)
    (s0 : WFState) (prompts : List String) (s2 : WFState)
    (resParts2 : List Part) (evs2 : List Ev)
    (hterm : s0.terminate = false)
    (hmal : (llm s0.agentName s0.contents).finishReason ≠ .malformedFunctionCall)
    (hfc : (llm s0.agentName s0.contents).functionCalls.isEmpty = false)
    (hdisp : dispatchActions (childRunnerF llm act n) act
        (storeContent s0 (llm s0.agentName s0.contents).content).1
        (llm s0.agentName s0.contents).functionCalls = .ok s2 resParts2 evs2) :
    runLoopF llm act (n + 1) s0 prompts =
      withEvents (Ev.callLLM s0.agentName ::
          (storeContent s0 (llm s0.agentName s0.contents).content).2 ++ evs2)
        (runLoopF llm act n s2 prompts) := by
  unfold childRunnerF at hdisp
  rw [runLoopF, hterm]
  simp only [Bool.false_eq_true, if_false, if_neg hmal, hfc, hdisp]

/-- C3: for every model turn with requested actions, each action is
dispatched in the order the model requested it (the dispatch events, read
off in order, name exactly the requested actions in request order), exactly
one response part is collected per action (same length, and the i-th part
answers the i-th requested name), all response parts are appended to the
history as one single new user-role entry, and control returns to the
model-calling loop (the loop recurses with the remaining fuel after the
dispatch, re-entering the gateway call). -/
theorem c3_actions_in_order (runChild : AgentWorkflowInput → RunOut) (act : ActOracle)
    (s s1 : WFState) (funcs : List FunctionCall) (resParts : List Part) (evs : List Ev)
    (hok : handleFuncLoopW runChild act s funcs = .ok s1 resParts evs) :
    resParts.length = funcs.length ∧
    resParts.map respName = funcs.map (fun f => some f.name) ∧
    evs.filterMap invokeName = funcs.map (fun f => f.name) ∧
    dispatchActions runChild act s funcs =
      .ok { s1 with contents := s.contents ++ [Content.mk "user" resParts] } resParts evs ∧
    (∀ (llm : LLMOracle) (n : Nat) (s0 : WFState) (prompts : List String)
        (s2 : WFState) (resParts2 : List Part) (evs2 : List Ev),
        s0.terminate = false →
        (llm s0.agentName s0.contents).finishReason ≠ .malformedFunctionCall →
        (llm s0.agentName s0.contents).functionCalls.isEmpty = false →
        dispatchActions (childRunnerF llm act n) act
            (storeContent s0 (llm s0.agentName s0.contents).content).1
            (llm s0.agentName s0.contents).functionCalls = .ok s2 resParts2 evs2 →
        runLoopF llm act (n + 1) s0 prompts =
          withEvents (Ev.callLLM s0.agentName ::
              (storeContent s0 (llm s0.agentName s0.contents).content).2 ++ evs2)
            (runLoopF llm act n s2 prompts)) := by
  obtain ⟨q1, q2, q3, q4, q5, q6, q7, q8, q9, q10⟩ :=
    handleFuncLoopW_ok_spec runChild act funcs s s1 resParts evs hok
  exact ⟨q1, q2, q3, dispatchActions_ok runChild act s s1 funcs resParts evs hok,
    fun llm n s0 prompts s2 resParts2 evs2 hterm hmal hfc hdisp =>
      runLoopF_dispatch_eq llm act n s0 prompts s2 resParts2 evs2 hterm hmal hfc hdisp⟩

/-- A sample instance state used by the concrete witnesses below. -/
def wState : WFState :=
  { agentName := "root"
    isRootAgent := true
    subAgents := .node [("helper", .node [])]
    contents := [userContent "hi"]
    contentsStartsAt := 0
    pendingRespond := some .unresolved
    terminate := false
    modelContents := [] }

/-- A sample activity oracle used by the concrete witnesses below. -/
def wAct : ActOracle := fun n v => n ++ ":" ++ v

/-- A sample child runner used by the concrete witnesses below: it sends
one thought signal to the parent and returns a fixed one-entry delta. -/
def wChild : AgentWorkflowInput → RunOut :=
  fun _ => ⟨wState, [Ev.signalParent "child-thought"], .returned [userContent "delta"]⟩

/-- C3 witness: two local-tool actions are dispatched in order, yielding
exactly one response part each. -/
theorem c3_actions_in_order_witness :
    handleFuncLoopW wChild wAct wState [⟨"t1", [("q", "1")]⟩, ⟨"t2", []⟩] =
      .ok wState
        [Part.functionResponse "t1" (wrapContent "t1:1"),
         Part.functionResponse "t2" (wrapContent "t2:")]
        [Ev.invokeActivity "t1", Ev.invokeActivity "t2"] ∧
    ([Part.functionResponse "t1" (wrapContent "t1:1"),
      Part.functionResponse "t2" (wrapContent "t2:")] : List Part).length =
      ([⟨"t1", [("q", "1")]⟩, ⟨"t2", []⟩] : List FunctionCall).length :=
  ⟨rfl,
   (c3_actions_in_order wChild wAct wState wState [⟨"t1", [("q", "1")]⟩, ⟨"t2", []⟩]
     [Part.functionResponse "t1" (wrapContent "t1:1"),
      Part.functionResponse "t2" (wrapContent "t2:")]
     [Ev.invokeActivity "t1", Ev.invokeActivity "t2"] rfl).1⟩

/-- C4: an action whose name is a key of the instance sub_agents mapping
(a direct child, looked up only among the direct children) is dispatched as
a child workflow whose input carries is_root_agent = false, the serialized
arguments as initiating prompt, a copy of the current history (so the child
starts with delta offset equal to the current history length), and the
matching sub-tree; when the child run completes with a delta, that delta is
wrapped as a single tool-result part used as the action response.  A name
that is not a direct child (even if it occurs deeper in the tree) is
dispatched as a local tool activity instead. -/
theorem c4_child_dispatch (runChild : AgentWorkflowInput → RunOut) (act : ActOracle)
    (s : WFState) (f : FunctionCall) (sub : AgentTree) (delta : List Content)
    (hsub : s.subAgents.lookup f.name = some sub)
    (hrun : (runChild (childInput s f sub)).outcome = .returned delta) :
    (childInput s f sub).isRootAgent = false ∧
    (childInput s f sub).prompt = jsonDumps f.args ∧
    (childInput s f sub).contents = s.contents ∧
    (childInput s f sub).subAgents = sub ∧
    (initState (childInput s f sub)).contentsStartsAt = s.contents.length ∧
    invokeOne runChild act s f =
      .ok (Part.functionResponse f.name (wrapContent (encodeContents delta)))
        { s with modelContents :=
            s.modelContents ++ sentSignals (runChild (childInput s f sub)).events }
        [Ev.invokeChild f.name] ∧
    (∀ g : FunctionCall, s.subAgents.lookup g.name = none →
      invokeOne runChild act s g =
        .ok (Part.functionResponse g.name (wrapContent (act g.name (firstArgVal g)))) s
          [Ev.invokeActivity g.name]) := by
  refine ⟨rfl, rfl, rfl, rfl, rfl, ?_, ?_⟩
  · simp only [invokeOne, hsub, hrun]
  · intro g hg
    simp only [invokeOne, hg]

/-- C4 witness: a concrete direct-child action dispatched as a child
workflow, with the returned delta wrapped as the single tool-result part
and the child thought signal delivered to the parent ThoughtLog. -/
theorem c4_child_dispatch_witness :
    wState.subAgents.lookup "helper" = some (.node []) ∧
    invokeOne wChild wAct wState ⟨"helper", [("task", "do")]⟩ =
      .ok (Part.functionResponse "helper" (wrapContent (encodeContents [userContent "delta"])))
        { wState with modelContents := wState.modelContents ++ ["child-thought"] }
        [Ev.invokeChild "helper"] :=
  ⟨rfl,
   (c4_child_dispatch wChild wAct wState ⟨"helper", [("task", "do")]⟩ (.node [])
     [userContent "delta"] rfl rfl).2.2.2.2.2.1⟩

section LoopHelpers

theorem runLoopF_malformed_step (llm : LLMOracle) (act : ActOracle) (n : Nat)
    (s : WFState) (prompts : List String)
    (hterm : s.terminate = false)
    (hmal : (llm s.agentName s.contents).finishReason = .malformedFunctionCall) :
    runLoopF llm act (n + 1) s prompts =
      withEvents [Ev.callLLM s.agentName]
        (runLoopF llm act n
          { s with contents :=
              s.contents ++ [userContent (llm s.agentName s.contents).finishMessage] }
          prompts) := by
  rw [runLoopF, hterm]
  simp only [Bool.false_eq_true, if_false, if_pos hmal]

theorem malformed_forever (llm : LLMOracle) (act : ActOracle) (a : String)
    (hall : ∀ hist, (llm a hist).finishReason = .malformedFunctionCall) :
    ∀ (fuel : Nat) (s : WFState) (prompts : List String),
      s.agentName = a → s.terminate = false →
      (runLoopF llm act fuel s prompts).outcome = .outOfFuel ∧
      (runLoopF llm act fuel s prompts).events = List.replicate fuel (Ev.callLLM a) ∧
      (runLoopF llm act fuel s prompts).state.contents.length = s.contents.length + fuel := by
  intro fuel
  induction fuel with
  | zero =>
    intro s prompts ha ht
    exact ⟨rfl, rfl, rfl⟩
  | succ n ih =>
    intro s prompts ha ht
    have hm : (llm s.agentName s.contents).finishReason = .malformedFunctionCall := by
      rw [ha]; exact hall s.contents
    rw [runLoopF_malformed_step llm act n s prompts ht hm]
    obtain ⟨o1, o2, o3⟩ := ih
      { s with contents := s.contents ++ [userContent (llm s.agentName s.contents).finishMessage] }
      prompts ha ht
    refine ⟨o1, ?_, ?_⟩
    · show Ev.callLLM s.agentName :: (runLoopF llm act n _ prompts).events = _
      rw [o2, ha, List.replicate_succ]
    · show (runLoopF llm act n _ prompts).state.contents.length = _
      rw [o3]
      simp
      omega

end LoopHelpers

/-- C5: when the gateway reports a malformed request, the loop appends the
diagnostic finish message as a new user-role entry and re-enters the
model-calling state; and with a gateway that always reports malformed
requests the loop retries forever without bound: for every fuel it is still
running, having made exactly fuel gateway calls and appended exactly fuel
entries. -/
theorem c5_malformed_retry (llm : LLMOracle) (act : ActOracle) (n : Nat)
    (s : WFState) (prompts : List String)
    (hterm : s.terminate = false)
    (hmal : (llm s.agentName s.contents).finishReason = .malformedFunctionCall) :
    runLoopF llm act (n + 1) s prompts =
      withEvents [Ev.callLLM s.agentName]
        (runLoopF llm act n
          { s with contents :=
              s.contents ++ [userContent (llm s.agentName s.contents).finishMessage] }
          prompts) ∧
    ((∀ hist, (llm s.agentName hist).finishReason = .malformedFunctionCall) →
      ∀ fuel : Nat,
        (runLoopF llm act fuel s prompts).outcome = .outOfFuel ∧
        (runLoopF llm act fuel s prompts).events =
          List.replicate fuel (Ev.callLLM s.agentName) ∧
        (runLoopF llm act fuel s prompts).state.contents.length =
          s.contents.length + fuel) := by
  refine ⟨runLoopF_malformed_step llm act n s prompts hterm hmal, ?_⟩
  intro hall fuel
  exact malformed_forever llm act s.agentName hall fuel s prompts rfl hterm

/-- A gateway oracle that always reports a malformed request, used by the
C5 witness. -/
def wMalLLM : LLMOracle := fun _ _ => ⟨.malformedFunctionCall, "bad call", ⟨"model", []⟩⟩

/-- A gateway oracle that always returns a finishing STOP turn with the
single text "done", used by concrete witnesses and counterexamples. -/
def wStopLLM : LLMOracle := fun _ _ => ⟨.stop, "", ⟨"model", [Part.text "done"]⟩⟩

/-- C5 witness: with a gateway that always reports malformed requests, two
fuel steps make exactly two gateway calls and the loop is still running. -/
theorem c5_malformed_retry_witness :
    wState.terminate = false ∧
    (runLoopF wMalLLM wAct 2 wState []).events =
      List.replicate 2 (Ev.callLLM wState.agentName) :=
  ⟨rfl, ((c5_malformed_retry wMalLLM wAct 1 wState [] rfl rfl).2 (fun _ => rfl) 2).2.1⟩

/-- C6: a prompt update carrying the sentinel "END" sets the terminate
flag and installs a fresh pending future; when the loop observes the flag
at its next iteration it resolves that pending response with the empty
string and exits: the entire remaining run is the single resolution event,
so no further gateway call ever occurs. -/
theorem c6_termination_sentinel (llm : LLMOracle) (act : ActOracle) (n : Nat)
    (s : WFState) (rest : List String) (hroot : s.isRootAgent = true) :
    (promptUpdate s "END").terminate = true ∧
    (promptUpdate s "END").pendingRespond = some .unresolved ∧
    runLoopF llm act (n + 1) (promptUpdate s "END") rest =
      ⟨{ promptUpdate s "END" with pendingRespond := some (.resolved "") },
        [Ev.resolveRespond ""], .exited⟩ ∧
    (∀ a, Ev.callLLM a ∉ (runLoopF llm act (n + 1) (promptUpdate s "END") rest).events) := by
  have ht : (promptUpdate s "END").terminate = true := by
    simp [promptUpdate]
  have hp : (promptUpdate s "END").pendingRespond = some .unresolved := by
    simp [promptUpdate]
  have heq : runLoopF llm act (n + 1) (promptUpdate s "END") rest =
      ⟨{ promptUpdate s "END" with pendingRespond := some (.resolved "") },
        [Ev.resolveRespond ""], .exited⟩ := by
    rw [runLoopF]
    simp only [ht, if_true, hp]
  refine ⟨ht, hp, heq, ?_⟩
  intro a
  rw [heq]
  simp

/-- C6 witness: sending "END" to the idle root sample state exits the loop
with the empty-result resolution and no gateway call. -/
theorem c6_termination_sentinel_witness :
    wState.isRootAgent = true ∧
    (∀ a, Ev.callLLM a ∉ (runLoopF wStopLLM wAct 4 (promptUpdate wState "END") []).events) :=
  ⟨rfl, (c6_termination_sentinel wStopLLM wAct 3 wState [] rfl).2.2.2⟩

section GrowthHelpers

@[simp]
theorem promptUpdate_contents (s : WFState) (p : String) :
    (promptUpdate s p).contents = s.contents ++ [userContent p] := by
  unfold promptUpdate
  split <;> rfl

theorem invokeOne_stateOf_contents (runChild : AgentWorkflowInput → RunOut)
    (act : ActOracle) (s : WFState) (f : FunctionCall) :
    ((invokeOne runChild act s f).stateOf).contents = s.contents := by
  simp only [invokeOne]
  split
  · split <;> rfl
  · rfl

theorem handleFuncLoopW_stateOf_contents (runChild : AgentWorkflowInput → RunOut)
    (act : ActOracle) :
    ∀ (funcs : List FunctionCall) (s : WFState),
      ((handleFuncLoopW runChild act s funcs).stateOf).contents = s.contents := by
  intro funcs
  induction funcs with
  | nil => intro s; rfl
  | cons f rest ih =>
    intro s
    simp only [handleFuncLoopW]
    cases h1 : invokeOne runChild act s f with
    | ok part sa evsa =>
      have hca : sa.contents = s.contents := by
        have hx := invokeOne_stateOf_contents runChild act s f
        rw [h1] at hx
        exact hx
      simp only []
      cases h2 : handleFuncLoopW runChild act sa rest with
      | ok sb partsb evsb =>
        have hx := ih sa
        rw [h2] at hx
        simp only [HandleRes.stateOf] at hx ⊢
        rw [hx, hca]
      | stuck sb evsb o =>
        have hx := ih sa
        rw [h2] at hx
        simp only [HandleRes.stateOf] at hx ⊢
        rw [hx, hca]
    | stuck sa evsa o =>
      simp only [HandleRes.stateOf]
      have hx := invokeOne_stateOf_contents runChild act s f
      rw [h1] at hx
      exact hx

theorem dispatchActions_ok_contents (runChild : AgentWorkflowInput → RunOut)
    (act : ActOracle) (s : WFState) (funcs : List FunctionCall)
    (s2 : WFState) (resParts : List Part) (evs : List Ev)
    (h : dispatchActions runChild act s funcs = .ok s2 resParts evs) :
    s2.contents = s.contents ++ [Content.mk "user" resParts] := by
  unfold dispatchActions at h
  cases hh : handleFuncLoopW runChild act s funcs with
  | ok s1 p e =>
    rw [hh] at h
    simp only [] at h
    have hc := (handleFuncLoopW_ok_spec runChild act funcs s s1 p e hh).2.2.2.1
    cases h
    rw [hc]
  | stuck s1 e o =>
    rw [hh] at h
    simp only [] at h
    cases h

theorem dispatchActions_stuck_contents (runChild : AgentWorkflowInput → RunOut)
    (act : ActOracle) (s : WFState) (funcs : List FunctionCall)
    (s2 : WFState) (evs : List Ev) (o : Outcome)
    (h : dispatchActions runChild act s funcs = .stuck s2 evs o) :
    s2.contents = s.contents := by
  unfold dispatchActions at h
  cases hh : handleFuncLoopW runChild act s funcs with
  | ok s1 p e =>
    rw [hh] at h
    simp only [] at h
    cases h
  | stuck s1 e o2 =>
    rw [hh] at h
    simp only [] at h
    have hx := handleFuncLoopW_stateOf_contents runChild act funcs s
    rw [hh] at hx
    simp only [HandleRes.stateOf] at hx
    cases h
    exact hx

theorem runLoopF_contents_grow (llm : LLMOracle) (act : ActOracle) :
    ∀ (fuel : Nat) (s : WFState) (prompts : List String),
      s.contents <+: (runLoopF llm act fuel s prompts).state.contents := by
  intro fuel
  induction fuel with
  | zero => intro s prompts; exact List.prefix_rfl
  | succ n ih =>
    intro s prompts
    rw [runLoopF]
    cases hterm : s.terminate with
    | true =>
      simp only [if_true]
      cases s.pendingRespond with
      | none => exact List.prefix_rfl
      | some fs => cases fs <;> exact List.prefix_rfl
    | false =>
      simp only [Bool.false_eq_true, if_false]
      by_cases hmal : (llm s.agentName s.contents).finishReason = .malformedFunctionCall
      · rw [if_pos hmal]
        refine List.IsPrefix.trans ?_ (ih _ prompts)
        exact List.prefix_append s.contents _
      · rw [if_neg hmal]
        by_cases hfc : (llm s.agentName s.contents).functionCalls.isEmpty
        · rw [if_pos hfc]
          by_cases hstop : (llm s.agentName s.contents).finishReason = .stop
          · rw [if_pos hstop]
            by_cases hroot : (storeContent s (llm s.agentName s.contents).content).1.isRootAgent
            · rw [if_pos hroot]
              cases hp : (storeContent s (llm s.agentName s.contents).content).1.pendingRespond with
              | none =>
                refine List.IsPrefix.trans ?_ (ih _ prompts)
                rw [storeContent_contents]
                exact List.prefix_append s.contents _
              | some fs =>
                cases fs with
                | unresolved =>
                  cases prompts with
                  | nil =>
                    show s.contents <+:
                      ((storeContent s (llm s.agentName s.contents).content).1).contents
                    rw [storeContent_contents]
                    exact List.prefix_append s.contents _
                  | cons p rest =>
                    refine List.IsPrefix.trans ?_ (ih _ rest)
                    rw [promptUpdate_contents]
                    refine List.IsPrefix.trans ?_ (List.prefix_append _ _)
                    show s.contents <+:
                      ((storeContent s (llm s.agentName s.contents).content).1).contents
                    rw [storeContent_contents]
                    exact List.prefix_append s.contents _
                | resolved v =>
                  show s.contents <+:
                    ((storeContent s (llm s.agentName s.contents).content).1).contents
                  rw [storeContent_contents]
                  exact List.prefix_append s.contents _
            · rw [if_neg hroot]
              show s.contents <+:
                ((storeContent s (llm s.agentName s.contents).content).1).contents
              rw [storeContent_contents]
              exact List.prefix_append s.contents _
          · rw [if_neg hstop]
            refine List.IsPrefix.trans ?_ (ih _ prompts)
            rw [storeContent_contents]
            exact List.prefix_append s.contents _
        · rw [if_neg hfc]
          cases hd : dispatchActions
              (fun inp => runWFwith (fun st pr => runLoopF llm act n st pr) inp [])
              act (storeContent s (llm s.agentName s.contents).content).1
              (llm s.agentName s.contents).functionCalls with
          | ok s2 parts2 evs2 =>
            simp only []
            refine List.IsPrefix.trans ?_ (ih s2 prompts)
            have hc := dispatchActions_ok_contents _ act _ _ _ _ _ hd
            rw [hc, storeContent_contents]
            refine List.IsPrefix.trans (List.prefix_append s.contents _) (List.prefix_append _ _)
          | stuck s2 evs2 o =>
            simp only []
            have hc := dispatchActions_stuck_contents _ act _ _ _ _ _ hd
            show s.contents <+: s2.contents
            rw [hc, storeContent_contents]
            exact List.prefix_append s.contents _

end GrowthHelpers

/-- C9: the conversation history only grows.  Every operation of the
workflow appends: a prompt update appends exactly the user prompt entry, a
stored turn appends exactly that turn, a completed dispatch appends exactly
one user entry of response parts, and across any run of the main loop
(covering the malformed-output retry, dispatching, responding and waiting)
the initial history stays an unchanged initial segment of the final
history, so entries already appended are never mutated or removed. -/
theorem c9_history_append_only (llm : LLMOracle) (act : ActOracle) :
    (∀ (s : WFState) (p : String),
        (promptUpdate s p).contents = s.contents ++ [userContent p]) ∧
    (∀ (s : WFState) (c : Content),
        (storeContent s c).1.contents = s.contents ++ [c]) ∧
    (∀ (runChild : AgentWorkflowInput → RunOut) (s s2 : WFState)
        (funcs : List FunctionCall) (resParts : List Part) (evs : List Ev),
        dispatchActions runChild act s funcs = .ok s2 resParts evs →
        s2.contents = s.contents ++ [Content.mk "user" resParts]) ∧
    (∀ (fuel : Nat) (s : WFState) (prompts : List String),
        s.contents <+: (runLoopF llm act fuel s prompts).state.contents) := by
  refine ⟨?_, ?_, ?_, ?_⟩
  · intro s p; exact promptUpdate_contents s p
  · intro s c; exact storeContent_contents s c
  · intro runChild s s2 funcs resParts evs h
    exact dispatchActions_ok_contents runChild act s funcs s2 resParts evs h
  · exact runLoopF_contents_grow llm act

/-- C9 witness: a concrete dispatch appends exactly one user entry holding
its response parts to the history. -/
theorem c9_history_append_only_witness :
    dispatchActions wChild wAct wState [⟨"t2", []⟩] =
      .ok { wState with contents :=
              wState.contents ++ [Content.mk "user" [Part.functionResponse "t2" (wrapContent "t2:")]] }
        [Part.functionResponse "t2" (wrapContent "t2:")] [Ev.invokeActivity "t2"] ∧
    ({ wState with contents :=
        wState.contents ++ [Content.mk "user" [Part.functionResponse "t2" (wrapContent "t2:")]] }).contents =
      wState.contents ++ [Content.mk "user" [Part.functionResponse "t2" (wrapContent "t2:")]] :=
  ⟨rfl,
   (c9_history_append_only wStopLLM wAct).2.2.1 wChild wState
     { wState with contents :=
         wState.contents ++ [Content.mk "user" [Part.functionResponse "t2" (wrapContent "t2:")]] }
     [⟨"t2", []⟩] [Part.functionResponse "t2" (wrapContent "t2:")] [Ev.invokeActivity "t2"] rfl⟩

/-- C8: when a model turn is stored, its text parts are appended to this
instance ThoughtLog in order, as part of the same storeContent step that
appends the turn to the history, and the emitted thought events carry a
parent signal per line exactly when the instance is not root; the parent
signal handler appends the line to the parent ThoughtLog; a child run
delivers its signalled lines into the parent ThoughtLog in order; and in a
dispatching loop iteration the storeContent step and its thought events
happen before any dispatch of that turn, whose events follow them in the
iteration trace. -/
theorem c8_thoughts_immediate_and_propagated (s : WFState) (c : Content)
    (hrole : c.role = "model") :
    (storeContent s c).1.modelContents = s.modelContents ++ textParts c ∧
    (storeContent s c).1.contents = s.contents ++ [c] ∧
    (storeContent s c).2 = thoughtEvents s.isRootAgent (textParts c) ∧
    (s.isRootAgent = false → sentSignals (storeContent s c).2 = textParts c) ∧
    (s.isRootAgent = true → sentSignals (storeContent s c).2 = []) ∧
    (∀ (log : List String) (m : String), addModelContent log m = log ++ [m]) ∧
    (∀ (runChild : AgentWorkflowInput → RunOut) (act : ActOracle)
        (f : FunctionCall) (sub : AgentTree) (delta : List Content),
        s.subAgents.lookup f.name = some sub →
        (runChild (childInput s f sub)).outcome = .returned delta →
        ((invokeOne runChild act s f).stateOf).modelContents =
          s.modelContents ++ sentSignals (runChild (childInput s f sub)).events) ∧
    (∀ (llm : LLMOracle) (act : ActOracle) (n : Nat) (s0 : WFState)
        (prompts : List String) (s2 : WFState) (resParts2 : List Part) (evs2 : List Ev),
        s0.terminate = false →
        (llm s0.agentName s0.contents).finishReason ≠ .malformedFunctionCall →
        (llm s0.agentName s0.contents).functionCalls.isEmpty = false →
        dispatchActions (childRunnerF llm act n) act
            (storeContent s0 (llm s0.agentName s0.contents).content).1
            (llm s0.agentName s0.contents).functionCalls = .ok s2 resParts2 evs2 →
        runLoopF llm act (n + 1) s0 prompts =
          withEvents (Ev.callLLM s0.agentName ::
              (storeContent s0 (llm s0.agentName s0.contents).content).2 ++ evs2)
            (runLoopF llm act n s2 prompts)) := by
  refine ⟨storeContent_model_log s c hrole, storeContent_contents s c,
    storeContent_model_events s c hrole, ?_, ?_, fun _ _ => rfl, ?_, ?_⟩
  · intro hr
    rw [storeContent_model_events s c hrole, hr]
    exact sentSignals_thoughtEvents_nonroot (textParts c)
  · intro hr
    rw [storeContent_model_events s c hrole, hr]
    exact sentSignals_thoughtEvents_root (textParts c)
  · intro runChild act f sub delta hsub hrun
    simp only [invokeOne, hsub, hrun, InvokeRes.stateOf]
  · intro llm act n s0 prompts s2 resParts2 evs2 hterm hmal hfc hdisp
    exact runLoopF_dispatch_eq llm act n s0 prompts s2 resParts2 evs2 hterm hmal hfc hdisp

/-- A sample non-root instance state used by the C8 witness. -/
def wSubState : WFState :=
  { wState with agentName := "helper", isRootAgent := false }

/-- C8 witness: storing a concrete model turn on a non-root instance
appends its text part to the ThoughtLog and signals it to the parent. -/
theorem c8_thoughts_witness :
    (⟨"model", [Part.text "think", Part.functionCall "t" []]⟩ : Content).role = "model" ∧
    (storeContent wSubState ⟨"model", [Part.text "think", Part.functionCall "t" []]⟩).1.modelContents =
      wSubState.modelContents ++ ["think"] ∧
    sentSignals (storeContent wSubState ⟨"model", [Part.text "think", Part.functionCall "t" []]⟩).2 =
      ["think"] :=
  ⟨rfl,
   (c8_thoughts_immediate_and_propagated wSubState
     ⟨"model", [Part.text "think", Part.functionCall "t" []]⟩ rfl).1,
   (c8_thoughts_immediate_and_propagated wSubState
     ⟨"model", [Part.text "think", Part.functionCall "t" []]⟩ rfl).2.2.2.1 rfl⟩

/-- C1 counterexample: a root instance started with a non-empty initial
prompt has no PendingResponse when its first finishing STOP turn arrives.
The claim states the root then returns to Idle to await the next prompt,
which would appear here (with no external prompt supplied) as an
awaitPrompt event and the awaitingPrompt outcome after a single gateway
call.  Instead the code skips the wait (it sits inside the
if self.pending_respond: block, workflow.py lines 96-98) and immediately
re-enters the model-calling state: the trace shows a second gateway call
and the run is still looping when fuel ends, never idling and never
resolving anything. -/
theorem c1_counterexample :
    (runWF wStopLLM wAct 3 ⟨"a", .node [], "hi", [], true⟩ []).events =
      [Ev.callLLM "a", Ev.storeThought "done", Ev.callLLM "a", Ev.storeThought "done"] ∧
    (runWF wStopLLM wAct 3 ⟨"a", .node [], "hi", [], true⟩ []).outcome = .outOfFuel ∧
    (runWF wStopLLM wAct 3 ⟨"a", .node [], "hi", [], true⟩ []).state.pendingRespond = none :=
  ⟨rfl, rfl, rfl⟩

/-- C1 amended: on a finishing model turn (no requested actions, finish
reason STOP): a non-root instance terminates, returning the history slice
from its delta offset onward; a root instance with an unresolved
PendingResponse resolves it with the finishing text and returns to Idle to
await the next prompt or termination; a root instance with no
PendingResponse does not idle but immediately re-enters the model-calling
state (this configuration only arises when a root is started with a
non-empty initial prompt, which the repository never does). -/
theorem c1_finishing_turn (llm : LLMOracle) (act : ActOracle) (n : Nat)
    (s : WFState) (prompts : List String)
    (hterm : s.terminate = false)
    (hstop : (llm s.agentName s.contents).finishReason = .stop)
    (hnofc : (llm s.agentName s.contents).functionCalls = []) :
    (s.isRootAgent = false →
      runLoopF llm act (n + 1) s prompts =
        ⟨(storeContent s (llm s.agentName s.contents).content).1,
          Ev.callLLM s.agentName :: (storeContent s (llm s.agentName s.contents).content).2,
          .returned (((storeContent s (llm s.agentName s.contents).content).1.contents).drop
            s.contentsStartsAt)⟩) ∧
    (s.isRootAgent = true → s.pendingRespond = some .unresolved → prompts = [] →
      runLoopF llm act (n + 1) s prompts =
        ⟨{ (storeContent s (llm s.agentName s.contents).content).1 with
            pendingRespond :=
              some (.resolved (contentText (llm s.agentName s.contents).content)) },
          Ev.callLLM s.agentName :: (storeContent s (llm s.agentName s.contents).content).2 ++
            [Ev.resolveRespond (contentText (llm s.agentName s.contents).content), Ev.awaitPrompt],
          .awaitingPrompt⟩) ∧
    (s.isRootAgent = true → s.pendingRespond = none →
      runLoopF llm act (n + 1) s prompts =
        withEvents (Ev.callLLM s.agentName ::
            (storeContent s (llm s.agentName s.contents).content).2)
          (runLoopF llm act n (storeContent s (llm s.agentName s.contents).content).1 prompts)) := by
  have hmal : (llm s.agentName s.contents).finishReason ≠ .malformedFunctionCall := by
    rw [hstop]; intro hx; cases hx
  have hfc : (llm s.agentName s.contents).functionCalls.isEmpty = true := by
    rw [hnofc]; rfl
  refine ⟨?_, ?_, ?_⟩
  · intro hroot
    rw [runLoopF, hterm]
    simp only [Bool.false_eq_true, if_false, if_neg hmal, hfc, if_true, if_pos hstop,
      storeContent_isRoot, hroot, storeContent_startsAt]
  · intro hroot hp hpr
    subst hpr
    rw [runLoopF, hterm]
    simp only [Bool.false_eq_true, if_false, if_neg hmal, hfc, if_true, if_pos hstop,
      storeContent_isRoot, hroot, storeContent_pending, hp]
  · intro hroot hp
    rw [runLoopF, hterm]
    simp only [Bool.false_eq_true, if_false, if_neg hmal, hfc, if_true, if_pos hstop,
      storeContent_isRoot, hroot, storeContent_pending, hp]

/-- C1 witness: a finishing turn on the idle-with-pending root sample state
resolves the pending response with the turn text and suspends awaiting the
next prompt. -/
theorem c1_finishing_turn_witness :
    wState.terminate = false ∧
    runLoopF wStopLLM wAct 1 wState [] =
      ⟨{ wState with
          contents := wState.contents ++ [⟨"model", [Part.text "done"]⟩],
          modelContents := ["done"],
          pendingRespond := some (.resolved "done") },
        [Ev.callLLM "root", Ev.storeThought "done", Ev.resolveRespond "done", Ev.awaitPrompt],
        .awaitingPrompt⟩ :=
  ⟨rfl, (c1_finishing_turn wStopLLM wAct 0 wState [] rfl rfl rfl).2.1 rfl rfl rfl⟩

end MultiAgent
